import Mathlib

/-!
Verification development for the wasp WebAssembly toolkit core
(binary reader, text tokenizer, name/type resolution helpers).

Bytes are modelled as natural numbers; byte buffers as `List Nat`.
Machine integers are modelled as `Nat`/`Int` with explicit reductions
modulo `2 ^ w` where the C++ unsigned arithmetic overflows.
-/

/-- Failure kinds of the LEB128 decoder.  The C++ `ReadVarInt`
(src/binary/reader-inl.h) returns `absl::nullopt` on both failure paths;
the embedding tags which branch failed: `UnexpectedEnd` is the
`ReadU8` failure (input exhausted), `IntegerTooLarge` is the final-byte
high-bit check failure. -/
inductive ReadError where
  | UnexpectedEnd : ReadError
  | IntegerTooLarge : ReadError
deriving DecidableEq, Repr

/-- `kMaxBytes = (sizeof(T) * 8 + 6) / 7` from `ReadVarInt`
(src/binary/reader-inl.h line 81); `Nat` division is the C integer
division, so this is `⌈w / 7⌉`: 5 bytes for `w = 32`, 10 for `w = 64`. -/
def maxVarIntBytes (w : Nat) : Nat := (w + 6) / 7

/-- `kUsedBitsInLastByte = sizeof(T) * 8 - 7 * (kMaxBytes - 1)`
(src/binary/reader-inl.h line 82). -/
def usedBitsInLastByte (w : Nat) : Nat := w - 7 * (maxVarIntBytes w - 1)

/-- `kMask = ~((1 << kMaskBits) - 1)` truncated to `u8`, where
`kMaskBits = kUsedBitsInLastByte - (is_signed ? 1 : 0)`
(src/binary/reader-inl.h lines 83-84).  As a natural number below 256
this is `256 - 2 ^ kMaskBits`. -/
def varIntMask (w : Nat) (signed : Bool) : Nat :=
  256 - 2 ^ (usedBitsInLastByte w - (if signed then 1 else 0))

/-- `kOnes = kMask & 0x7f` (src/binary/reader-inl.h line 85). -/
def varIntOnes (w : Nat) (signed : Bool) : Nat := varIntMask w signed &&& 0x7f

/-- `SignExtend<S>(x, N)`: keep bits `0..N` of `x` and sign-extend from
bit `N` (src/binary/reader-inl.h lines 71-75). -/
def signExtendFrom (n : Nat) (x : Nat) : Int :=
  let low := x % 2 ^ (n + 1)
  if low < 2 ^ n then (low : Int) else (low : Int) - 2 ^ (n + 1)

/-- `static_cast<T>(result)` for signed `T` of width `w`: reinterpret the
`w`-bit unsigned accumulator as two's complement. -/
def toSigned (w : Nat) (x : Nat) : Int :=
  if x % 2 ^ w < 2 ^ (w - 1) then (x % 2 ^ w : Int) else (x % 2 ^ w : Int) - 2 ^ w

/-- Success condition of the final (`kMaxBytes`-th) byte of `ReadVarInt`
(src/binary/reader-inl.h line 95): the masked high bits are all zero, or
(signed only) exactly the non-continuation ones pattern. -/
def lastByteOk (w : Nat) (signed : Bool) (b : Nat) : Prop :=
  b &&& varIntMask w signed = 0 ∨ (signed = true ∧ b &&& varIntMask w signed = varIntOnes w signed)

instance (w : Nat) (signed : Bool) (b : Nat) : Decidable (lastByteOk w signed b) := by
  unfold lastByteOk; infer_instance

/-- The loop of `ReadVarInt` (src/binary/reader-inl.h lines 87-102).
`fuel` is the number of bytes that may still be read after the current
one (`kMaxBytes - 1 - i`); `shift = 7 * i`; `result` is the unsigned
accumulator.  The remaining input is returned on every path, mirroring
the C++ span pointer that stays advanced on failure. -/
def readVarIntLoop (w : Nat) (signed : Bool) :
    Nat → Nat → Nat → List Nat → Except ReadError Int × List Nat
  | _, _, _, [] => (.error .UnexpectedEnd, [])
  | 0, shift, result, b :: rest =>
      let result := (result ||| ((b &&& 0x7f) <<< shift)) % 2 ^ w
      if lastByteOk w signed b then
        ((.ok (if signed then toSigned w result else (result : Int))), rest)
      else
        (.error .IntegerTooLarge, rest)
  | fuel + 1, shift, result, b :: rest =>
      let result := (result ||| ((b &&& 0x7f) <<< shift)) % 2 ^ w
      if b &&& 0x80 = 0 then
        ((.ok (if signed then signExtendFrom (6 + shift) result else (result : Int))), rest)
      else
        readVarIntLoop w signed fuel (shift + 7) result rest

/-- `ReadVarInt<T>` (src/binary/reader-inl.h lines 77-103), with
`w = sizeof(T) * 8` and `signed = std::is_signed<T>`. -/
def ReadVarInt (w : Nat) (signed : Bool) (d : List Nat) : Except ReadError Int × List Nat :=
  readVarIntLoop w signed (maxVarIntBytes w - 1) 0 0 d

/-- Every run of the loop consumes between 1 and `fuel + 1` bytes (on the
empty input, `drop 1` is still the whole remainder). -/
theorem readVarIntLoop_drop (w : Nat) (signed : Bool) :
    ∀ (fuel shift result : Nat) (d : List Nat),
      ∃ k, 1 ≤ k ∧ k ≤ fuel + 1 ∧ (readVarIntLoop w signed fuel shift result d).2 = d.drop k := by
  intro fuel
  induction fuel with
  | zero =>
      intro shift result d
      cases d with
      | nil => exact ⟨1, by simp [readVarIntLoop]⟩
      | cons b rest =>
          refine ⟨1, le_refl 1, le_refl 1, ?_⟩
          by_cases h : lastByteOk w signed b <;> simp [readVarIntLoop, h]
  | succ fuel ih =>
      intro shift result d
      cases d with
      | nil => exact ⟨1, by simp [readVarIntLoop], by omega, by simp [readVarIntLoop]⟩
      | cons b rest =>
          by_cases h : b &&& 0x80 = 0
          · exact ⟨1, le_refl 1, by omega, by simp [readVarIntLoop, h]⟩
          · obtain ⟨k, hk1, hk2, hk3⟩ :=
              ih (shift + 7) ((result ||| ((b &&& 0x7f) <<< shift)) % 2 ^ w) rest
            refine ⟨k + 1, by omega, by omega, ?_⟩
            simp [readVarIntLoop, h, hk3, List.drop_succ_cons]

/-- If the input is long enough and the first `fuel` bytes all carry the
continuation bit, the loop reaches the final byte: it consumes exactly
`fuel + 1` bytes, succeeds precisely when the final byte passes the
high-bit check, and otherwise fails with `IntegerTooLarge`. -/
theorem readVarIntLoop_saturated (w : Nat) (signed : Bool) :
    ∀ (fuel shift result : Nat) (d : List Nat),
      fuel + 1 ≤ d.length →
      (∀ j, j < fuel → d.getD j 0 &&& 0x80 ≠ 0) →
      (readVarIntLoop w signed fuel shift result d).2 = d.drop (fuel + 1) ∧
      ((lastByteOk w signed (d.getD fuel 0) →
          ∃ v, (readVarIntLoop w signed fuel shift result d).1 = .ok v) ∧
        (¬ lastByteOk w signed (d.getD fuel 0) →
          (readVarIntLoop w signed fuel shift result d).1 = .error .IntegerTooLarge)) := by
  intro fuel
  induction fuel with
  | zero =>
      intro shift result d hlen _
      cases d with
      | nil => simp at hlen
      | cons b rest =>
          constructor
          · by_cases h : lastByteOk w signed b <;> simp [readVarIntLoop, h]
          · constructor
            · intro h
              simp only [List.getD_cons_zero] at h
              simp only [readVarIntLoop, if_pos h]
              exact ⟨_, rfl⟩
            · intro h
              simp only [List.getD_cons_zero] at h
              simp [readVarIntLoop, h]
  | succ fuel ih =>
      intro shift result d hlen hcont
      cases d with
      | nil => simp at hlen
      | cons b rest =>
          have hb : b &&& 0x80 ≠ 0 := by
            have := hcont 0 (Nat.succ_pos fuel)
            simpa using this
          have hlen' : fuel + 1 ≤ rest.length := by
            simp at hlen; omega
          have hcont' : ∀ j, j < fuel → rest.getD j 0 &&& 0x80 ≠ 0 := by
            intro j hj
            have := hcont (j + 1) (by omega)
            simpa using this
          obtain ⟨h1, h2, h3⟩ :=
            ih (shift + 7) ((result ||| ((b &&& 0x7f) <<< shift)) % 2 ^ w) rest hlen' hcont'
          refine ⟨?_, ?_, ?_⟩
          · simp [readVarIntLoop, hb, h1, List.drop_succ_cons]
          · intro h
            obtain ⟨v, hv⟩ := h2 (by simpa using h)
            exact ⟨v, by simp [readVarIntLoop, hb, hv]⟩
          · intro h
            have := h3 (by simpa using h)
            simp [readVarIntLoop, hb, this]

/-- If the input is shorter than the byte budget and every input byte
carries the continuation bit, the loop runs off the end of the input and
fails with `UnexpectedEnd`. -/
theorem readVarIntLoop_short (w : Nat) (signed : Bool) :
    ∀ (fuel shift result : Nat) (d : List Nat),
      d.length ≤ fuel →
      (∀ b ∈ d, b &&& 0x80 ≠ 0) →
      (readVarIntLoop w signed fuel shift result d).1 = .error .UnexpectedEnd := by
  intro fuel
  induction fuel with
  | zero =>
      intro shift result d hlen _
      have : d = [] := List.length_eq_zero.mp (Nat.le_zero.mp hlen)
      subst this
      simp [readVarIntLoop]
  | succ fuel ih =>
      intro shift result d hlen hcont
      cases d with
      | nil => simp [readVarIntLoop]
      | cons b rest =>
          have hb : b &&& 0x80 ≠ 0 := hcont b (List.mem_cons_self b rest)
          have hlen' : rest.length ≤ fuel := by simp at hlen; omega
          have := ih (shift + 7) ((result ||| ((b &&& 0x7f) <<< shift)) % 2 ^ w) rest hlen'
            (fun x hx => hcont x (List.mem_cons_of_mem b hx))
          simp [readVarIntLoop, hb, this]

/-- C1.  For target widths 32 and 64 and either signedness, `ReadVarInt`
(src/binary/reader-inl.h lines 77-103) consumes at most
`(w + 6) / 7 = ⌈w / 7⌉` bytes (the C expression `(sizeof(T)*8 + 6) / 7`);
when the first `(w+6)/7 - 1` bytes all carry the continuation bit and the
input reaches the maximal byte, it consumes exactly `(w+6)/7` bytes and
succeeds iff the unused high bits of the final byte are all zero or
(signed) all one — otherwise it fails with `IntegerTooLarge`; and when
the input ends before any byte without the continuation bit, it fails
with `UnexpectedEnd`. -/
theorem readVarInt_spec (w : Nat) (signed : Bool) (hw : w = 32 ∨ w = 64) :
    (∀ d : List Nat, ∃ k, k ≤ maxVarIntBytes w ∧
        (ReadVarInt w signed d).2 = d.drop k) ∧
    (∀ d : List Nat, maxVarIntBytes w ≤ d.length →
      (∀ j, j < maxVarIntBytes w - 1 → d.getD j 0 &&& 0x80 ≠ 0) →
      (ReadVarInt w signed d).2 = d.drop (maxVarIntBytes w) ∧
      (lastByteOk w signed (d.getD (maxVarIntBytes w - 1) 0) →
          ∃ v, (ReadVarInt w signed d).1 = .ok v) ∧
      (¬ lastByteOk w signed (d.getD (maxVarIntBytes w - 1) 0) →
          (ReadVarInt w signed d).1 = .error .IntegerTooLarge)) ∧
    (∀ d : List Nat, d.length < maxVarIntBytes w →
      (∀ b ∈ d, b &&& 0x80 ≠ 0) →
      (ReadVarInt w signed d).1 = .error .UnexpectedEnd) := by
  have hm : 1 ≤ maxVarIntBytes w := by
    rcases hw with h | h <;> subst h <;> decide
  refine ⟨?_, ?_, ?_⟩
  · intro d
    obtain ⟨k, hk1, hk2, hk3⟩ := readVarIntLoop_drop w signed (maxVarIntBytes w - 1) 0 0 d
    exact ⟨k, by omega, hk3⟩
  · intro d hlen hcont
    have h := readVarIntLoop_saturated w signed (maxVarIntBytes w - 1) 0 0 d
      (by omega) hcont
    refine ⟨?_, ?_, ?_⟩
    · have := h.1
      rwa [Nat.sub_add_cancel hm] at this
    · exact h.2.1
    · exact h.2.2
  · intro d hlen hcont
    exact readVarIntLoop_short w signed (maxVarIntBytes w - 1) 0 0 d (by omega) hcont

/-- Witness for `readVarInt_spec`: instantiated at `w = 32`, signed,
on the concrete input `[0x80]` (a lone continuation byte), the decoder
fails with `UnexpectedEnd`. -/
theorem readVarInt_spec_witness :
    (32 = 32 ∨ 32 = 64) ∧
    (ReadVarInt 32 true [0x80]).1 = .error .UnexpectedEnd := by
  refine ⟨Or.inl rfl, ?_⟩
  exact (readVarInt_spec 32 true (Or.inl rfl)).2.2 [0x80] (by decide) (by decide)

/-- `Limits` (wasp/binary/limits.h): minimum and optional maximum. -/
structure Limits where
  min : Nat
  max : Option Nat
deriving DecidableEq, Repr

/-- The error channel: the stack of context frames currently in effect
(each with the byte offset at which it was pushed) and the list of
reported errors, each a full trail of context frames ending in the
message (wasp/binary/errors.h, as exercised by ErrorsContextGuard and
the test expectations in src/src/binary/read_memory_test.cc). -/
structure Errors where
  context : List (Nat × String)
  errors : List (List (Nat × String))
deriving DecidableEq, Repr

/-- Push a context frame (ErrorsContextGuard construction). -/
def Errors.PushContext (e : Errors) (pos : Nat) (desc : String) : Errors :=
  { e with context := e.context ++ [(pos, desc)] }

/-- Pop the innermost context frame (ErrorsContextGuard destruction
or its explicit PopContext). -/
def Errors.PopContext (e : Errors) : Errors :=
  { e with context := e.context.dropLast }

/-- Report an error: the whole context stack is attached, ending in the
message at the given offset. -/
def Errors.OnError (e : Errors) (pos : Nat) (msg : String) : Errors :=
  { e with errors := e.errors ++ [e.context ++ [(pos, msg)]] }

/-- An empty error channel. -/
def Errors.empty : Errors := ⟨[], []⟩

/-- Reader position: the remaining bytes and the absolute offset of the
next byte (the C++ SpanU8 cursor). -/
structure RState where
  data : List Nat
  pos : Nat
deriving DecidableEq, Repr

/-- Modelled from the spec: `Read<u8>` (wasp/binary/read/read_u8.h is not
in the sampled slice).  On empty input it reports "Unable to read u8"
and fails; otherwise it consumes one byte. -/
def Read_u8 (s : RState) (e : Errors) : Option Nat × RState × Errors :=
  match s.data with
  | [] => (none, s, e.OnError s.pos "Unable to read u8")
  | b :: rest => (some b, ⟨rest, s.pos + 1⟩, e)

/-- Modelled from the spec: `Read<u32>` (wasp/binary/read/read_u32.h is
not in the sampled slice), an unsigned LEB128 read delegating to
`ReadVarInt` from src/src/binary/reader-inl.h. -/
def Read_u32 (s : RState) (e : Errors) : Option Nat × RState × Errors :=
  match ReadVarInt 32 false s.data with
  | (.ok v, rest) => (some v.toNat, ⟨rest, s.pos + (s.data.length - rest.length)⟩, e)
  | (.error _, rest) => (none, ⟨rest, s.pos + (s.data.length - rest.length)⟩,
      e.OnError s.pos "Unable to read u32")

/-- `encoding::Limits::Flags_NoMax`
(src/include/wasp/binary/encoding/limits_encoding.h). -/
def LimitsFlags_NoMax : Nat := 0

/-- `encoding::Limits::Flags_HasMax`
(src/include/wasp/binary/encoding/limits_encoding.h). -/
def LimitsFlags_HasMax : Nat := 1

/-- `Read<Limits>` (src/include/wasp/binary/read/read_limits.h lines
33-52).  The ErrorsContextGuard pushes "limits" on entry and pops it on
every exit; WASP_TRY_READ_CONTEXT pushes the field name around each
field read and pops it once the read succeeds (the guards' destructors
pop on the failure paths). -/
def ReadLimits (s : RState) (e : Errors) : Option Limits × RState × Errors :=
  let e := e.PushContext s.pos "limits"
  let e := e.PushContext s.pos "flags"
  match Read_u8 s e with
  | (none, s1, e1) => (none, s1, e1.PopContext.PopContext)
  | (some flags, s1, e1) =>
    let e1 := e1.PopContext
    if flags = LimitsFlags_NoMax then
      let e2 := e1.PushContext s1.pos "min"
      match Read_u32 s1 e2 with
      | (none, s2, e3) => (none, s2, e3.PopContext.PopContext)
      | (some min, s2, e3) => (some ⟨min, none⟩, s2, e3.PopContext.PopContext)
    else if flags = LimitsFlags_HasMax then
      let e2 := e1.PushContext s1.pos "min"
      match Read_u32 s1 e2 with
      | (none, s2, e3) => (none, s2, e3.PopContext.PopContext)
      | (some min, s2, e3) =>
        let e4 := e3.PopContext.PushContext s2.pos "max"
        match Read_u32 s2 e4 with
        | (none, s3, e5) => (none, s3, e5.PopContext.PopContext)
        | (some max, s3, e5) => (some ⟨min, some max⟩, s3, e5.PopContext.PopContext)
    else
      (none, s1, (e1.OnError s1.pos ("Invalid flags value: " ++ toString flags)).PopContext)

/-- Modelled from the spec: `Read<MemoryType>`
(wasp/binary/read/read_memory_type.h is not in the sampled slice): an
ErrorsContextGuard "memory type" around a `Read<Limits>`. -/
def ReadMemoryType (s : RState) (e : Errors) : Option Limits × RState × Errors :=
  let e := e.PushContext s.pos "memory type"
  match ReadLimits s e with
  | (none, s1, e1) => (none, s1, e1.PopContext)
  | (some l, s1, e1) => (some l, s1, e1.PopContext)

/-- Modelled from the spec: `Read<Memory>` (wasp/binary/read/read_memory.h
is not in the sampled slice): an ErrorsContextGuard "memory" around a
`Read<MemoryType>`. -/
def ReadMemory (s : RState) (e : Errors) : Option Limits × RState × Errors :=
  let e := e.PushContext s.pos "memory"
  match ReadMemoryType s e with
  | (none, s1, e1) => (none, s1, e1.PopContext)
  | (some l, s1, e1) => (some l, s1, e1.PopContext)

/-- C2.  Reading Limits from the bytes 01 01 02 yields min 1 and max 2
with no error; from 00 05 it yields min 5 and no max with no error; and
from 02 01 02 it reports exactly one error whose trail carries the
"limits" context and the bad-flags message for the value 2, and returns
no Limits value (src/include/wasp/binary/read/read_limits.h lines 33-52). -/
theorem readLimits_examples :
    ReadLimits ⟨[0x01, 0x01, 0x02], 0⟩ Errors.empty =
      (some ⟨1, some 2⟩, ⟨[], 3⟩, ⟨[], []⟩) ∧
    ReadLimits ⟨[0x00, 0x05], 0⟩ Errors.empty =
      (some ⟨5, none⟩, ⟨[], 2⟩, ⟨[], []⟩) ∧
    ReadLimits ⟨[0x02, 0x01, 0x02], 0⟩ Errors.empty =
      (none, ⟨[0x01, 0x02], 1⟩,
        ⟨[], [[(0, "limits"), (1, "Invalid flags value: 2")]]⟩) := by
  refine ⟨?_, ?_, ?_⟩ <;> rfl

/-- C7.  Reading a Memory from the empty input reports exactly one
error: at offset 0, the trail memory → memory type → limits → flags →
"Unable to read u8" — every context frame on the stack at the moment of
the error — and the context stack is empty afterwards
(src/src/binary/read_memory_test.cc, ReaderTest.Memory_PastEnd). -/
theorem readMemory_error_trail :
    ReadMemory ⟨[], 0⟩ Errors.empty =
      (none, ⟨[], 0⟩,
        ⟨[], [[(0, "memory"), (0, "memory type"), (0, "limits"), (0, "flags"),
               (0, "Unable to read u8")]]⟩) := by
  rfl

/-- Modelled from the spec: the value types of
src/include/wasp/binary/encoding/value_type_encoding.h; the table file
wasp/binary/value_type.def is not in the sampled slice, so the variants
and byte values follow the spec (the canonical WebAssembly encoding for
i32, i64, f32, f64, v128, funcref, externref, exnref). -/
inductive ValueType where
  | I32 | I64 | F32 | F64 | V128 | Funcref | Externref | Exnref
deriving DecidableEq, Repr

/-- `encoding::ValueType::Encode` (value_type_encoding.h lines 39-49):
the switch generated from the WASP_V table rows. -/
def ValueType.Encode : ValueType → Nat
  | .I32 => 0x7f
  | .I64 => 0x7e
  | .F32 => 0x7d
  | .F64 => 0x7c
  | .V128 => 0x7b
  | .Funcref => 0x70
  | .Externref => 0x6f
  | .Exnref => 0x68

/-- `encoding::ValueType::Decode` (value_type_encoding.h lines 52-62):
the inverse switch over the same table rows, `nullopt` on any other
byte. -/
def ValueType.Decode (val : Nat) : Option ValueType :=
  if val = 0x7f then some .I32
  else if val = 0x7e then some .I64
  else if val = 0x7d then some .F32
  else if val = 0x7c then some .F64
  else if val = 0x7b then some .V128
  else if val = 0x70 then some .Funcref
  else if val = 0x6f then some .Externref
  else if val = 0x68 then some .Exnref
  else none

set_option maxRecDepth 4096 in
/-- C10.  Value-type encode and decode are mutually inverse: decoding an
encoded value type returns it; any byte that decodes re-encodes to
itself; and every byte outside the table decodes to none
(src/include/wasp/binary/encoding/value_type_encoding.h lines 39-62). -/
theorem valueType_encode_decode :
    (∀ vt : ValueType, ValueType.Decode vt.Encode = some vt) ∧
    (∀ b : Fin 256, ∀ vt : ValueType,
      ValueType.Decode b.val = some vt → vt.Encode = b.val) ∧
    (∀ b : Fin 256,
      b.val ∉ [0x7f, 0x7e, 0x7d, 0x7c, 0x7b, 0x70, 0x6f, 0x68] →
      ValueType.Decode b.val = none) := by
  refine ⟨?_, ?_, ?_⟩
  · intro vt; cases vt <;> rfl
  · decide
  · decide

/-- Total byte size of a list of text string payloads (each given as its
decoded bytes), as summed for an inline data segment. -/
def textListByteSize (texts : List (List Nat)) : Nat :=
  (texts.map List.length).sum

/-- The memory produced for the text form with an inline data segment,
pinned by the repository's own test
(src/test/text/read_test.cc, TextReadTest.Memory, "Inline data segment"):
the limits are the total byte size of the data strings, with min equal
to max, and the data segment sits at offset 0.  The text reader itself
(wasp/text/read.cc) is not in the sampled slice; this definition follows
the test's expected value.  Returns (limits, data segment offset). -/
def inlineDataMemory (texts : List (List Nat)) : Limits × Nat :=
  (⟨textListByteSize texts, some (textListByteSize texts)⟩, 0)

/-- The WebAssembly page size. -/
def pageSize : Nat := 65536

/-- The spec's claimed limits for an inline data segment memory: the
byte length divided by the page size, rounded up, as both min and max
(spec.md section 4.4).  Stated for comparison with `inlineDataMemory`. -/
def specInlineDataLimits (texts : List (List Nat)) : Limits :=
  ⟨(textListByteSize texts + pageSize - 1) / pageSize,
    some ((textListByteSize texts + pageSize - 1) / pageSize)⟩

/-- The bytes of "hello" and "world", the ten data bytes of the memory
test (src/test/text/read_test.cc lines 1876-1885). -/
def helloWorldTexts : List (List Nat) :=
  [[0x68, 0x65, 0x6c, 0x6c, 0x6f], [0x77, 0x6f, 0x72, 0x6c, 0x64]]

/-- C4 counterexample.  For the ten data bytes of
`(memory (data "hello" "world"))` the code (pinned by
TextReadTest.Memory in src/test/text/read_test.cc) produces limits with
min = max = 10, the raw byte length — not the spec's one page: the
claim's page-rounded limits differ from what the code produces. -/
theorem inlineDataMemory_bytes_not_pages :
    (inlineDataMemory helloWorldTexts).1 = ⟨10, some 10⟩ ∧
    specInlineDataLimits helloWorldTexts = ⟨1, some 1⟩ ∧
    (inlineDataMemory helloWorldTexts).1 ≠ specInlineDataLimits helloWorldTexts := by
  refine ⟨rfl, by decide, by decide⟩

/-- C4 (amended).  Parsing the text form with an inline data segment
yields a memory whose limits have min equal to max, both equal to the
total byte length of the data strings (not divided by the page size),
plus a data segment at offset 0; in particular for the ten bytes of
"hello" "world" the resulting min and max equal 10
(src/test/text/read_test.cc, TextReadTest.Memory). -/
theorem inlineDataMemory_spec :
    (∀ texts : List (List Nat),
      (inlineDataMemory texts).1.min = textListByteSize texts ∧
      (inlineDataMemory texts).1.max = some (textListByteSize texts) ∧
      (inlineDataMemory texts).2 = 0) ∧
    inlineDataMemory helloWorldTexts = (⟨10, some 10⟩, 0) := by
  exact ⟨fun texts => ⟨rfl, rfl, rfl⟩, rfl⟩

/-- A function type: parameter and result value types.  Equality is
structural (spec.md section 3; names on bound parameters do not take
part in equality, as exercised by TextReadTest.FunctionTypeUse_ReuseType). -/
structure FunctionType where
  params : List ValueType
  results : List ValueType
deriving DecidableEq, Repr

/-- Modelled from the spec: the FunctionTypeMap of the text reader
(wasp/text/read/context.h is not in the sampled slice; behaviour is
pinned by the FunctionTypeUse and TypeEntry tests in
src/test/text/read_test.cc).  `list` holds the explicitly defined type
entries, `deferred` the implicitly used types awaiting EndModule. -/
structure FunctionTypeMap where
  list : List FunctionType
  deferred : List FunctionType
deriving DecidableEq, Repr

/-- An empty FunctionTypeMap. -/
def FunctionTypeMap.empty : FunctionTypeMap := ⟨[], []⟩

/-- Index of the first structurally equal type in a list. -/
def findTypeIndex (ft : FunctionType) : List FunctionType → Option Nat
  | [] => none
  | t :: ts => if t = ft then some 0 else (findTypeIndex ft ts).map (· + 1)

/-- `FunctionTypeMap::Define`: an explicit type entry is always appended,
even when a structurally equal entry exists
(TextReadTest.TypeEntry_DistinctTypes). -/
def FunctionTypeMap.Define (m : FunctionTypeMap) (ft : FunctionType) : FunctionTypeMap :=
  { m with list := m.list ++ [ft] }

/-- `FunctionTypeMap::Use` for an anonymous function type without a
type reference: reuse the index of a structurally equal explicit entry
if present; otherwise defer the type (first-seen order, no duplicate
deferrals).  Returns the reused index, if any. -/
def FunctionTypeMap.Use (m : FunctionTypeMap) (ft : FunctionType) :
    Option Nat × FunctionTypeMap :=
  match findTypeIndex ft m.list with
  | some i => (some i, m)
  | none =>
      if ft ∈ m.deferred then (none, m)
      else (none, { m with deferred := m.deferred ++ [ft] })

/-- `FunctionTypeMap::EndModule`: flush the deferred types, appending
them after all explicitly defined entries. -/
def FunctionTypeMap.EndModule (m : FunctionTypeMap) : FunctionTypeMap :=
  ⟨m.list ++ m.deferred, []⟩

/-- `FunctionTypeMap::Size`: the number of (explicit) type entries. -/
def FunctionTypeMap.Size (m : FunctionTypeMap) : Nat := m.list.length

/-- `FunctionTypeMap::Get`. -/
def FunctionTypeMap.Get (m : FunctionTypeMap) (i : Nat) : Option FunctionType :=
  m.list.get? i

/-- A found index points at a structurally equal entry. -/
theorem findTypeIndex_mem (ft : FunctionType) :
    ∀ l : List FunctionType, ft ∈ l →
      ∃ i, findTypeIndex ft l = some i ∧ l.get? i = some ft := by
  intro l
  induction l with
  | nil => intro h; cases h
  | cons t ts ih =>
      intro h
      by_cases ht : t = ft
      · exact ⟨0, by simp [findTypeIndex, ht], by simp [ht]⟩
      · have hmem : ft ∈ ts := by
          cases h with
          | head => exact absurd rfl ht
          | tail _ h => exact h
        obtain ⟨i, hi1, hi2⟩ := ih hmem
        exact ⟨i + 1, by simp [findTypeIndex, ht, hi1], by simpa using hi2⟩

/-- A type that is not in the list is not found. -/
theorem findTypeIndex_not_mem (ft : FunctionType) :
    ∀ l : List FunctionType, ft ∉ l → findTypeIndex ft l = none := by
  intro l
  induction l with
  | nil => intro _; rfl
  | cons t ts ih =>
      intro h
      have ht : t ≠ ft := fun e => h (e ▸ List.mem_cons_self t ts)
      have hts : ft ∉ ts := fun e => h (List.mem_cons_of_mem t e)
      simp [findTypeIndex, ht, ih hts]

/-- The function types used by the FunctionTypeMap tests. -/
def ftI32 : FunctionType := ⟨[.I32], []⟩

/-- The (f32) → () type deferred in TextReadTest.FunctionTypeUse_DeferType. -/
def ftF32 : FunctionType := ⟨[.F32], []⟩

/-- The (i64) → () type defined after the deferral in the same test. -/
def ftI64 : FunctionType := ⟨[.I64], []⟩

/-- C5.  Using an anonymous function type that is structurally equal to
an existing entry reuses its index and does not grow the map; using a
new one defers it, and EndModule appends the deferred types after all
explicit entries in first-seen order; two identical explicit entries
stay distinct; and the DeferType test sequence replays exactly
(src/test/text/read_test.cc: FunctionTypeUse_ReuseType,
FunctionTypeUse_DeferType, TypeEntry_DistinctTypes). -/
theorem functionTypeMap_spec :
    (∀ (m : FunctionTypeMap) (ft : FunctionType), ft ∈ m.list →
      (m.Use ft).2 = m ∧ ((m.Use ft).2).Size = m.Size ∧
      ∃ i, (m.Use ft).1 = some i ∧ m.list.get? i = some ft) ∧
    (∀ (m : FunctionTypeMap) (ft : FunctionType), ft ∉ m.list → ft ∉ m.deferred →
      ((m.Use ft).2).Size = m.Size ∧
      ((m.Use ft).2).EndModule.list = m.list ++ m.deferred ++ [ft]) ∧
    (∀ (m : FunctionTypeMap) (ft : FunctionType),
      ((m.Define ft).Define ft).Size = m.Size + 2) ∧
    (((FunctionTypeMap.empty.Define ftI32).Use ftI32).2.Size = 1 ∧
      ((((FunctionTypeMap.empty.Define ftI32).Use ftF32).2.Define ftI64).EndModule.Size = 3 ∧
        (((FunctionTypeMap.empty.Define ftI32).Use ftF32).2.Define ftI64).EndModule.Get 0 =
          some ftI32 ∧
        (((FunctionTypeMap.empty.Define ftI32).Use ftF32).2.Define ftI64).EndModule.Get 1 =
          some ftI64 ∧
        (((FunctionTypeMap.empty.Define ftI32).Use ftF32).2.Define ftI64).EndModule.Get 2 =
          some ftF32)) := by
  refine ⟨?_, ?_, ?_, ?_⟩
  · intro m ft hmem
    obtain ⟨i, hi1, hi2⟩ := findTypeIndex_mem ft m.list hmem
    refine ⟨by simp [FunctionTypeMap.Use, hi1], by simp [FunctionTypeMap.Use, hi1], i, ?_, hi2⟩
    simp [FunctionTypeMap.Use, hi1]
  · intro m ft hml hmd
    have h := findTypeIndex_not_mem ft m.list hml
    constructor
    · simp [FunctionTypeMap.Use, h, hmd, FunctionTypeMap.Size]
    · simp [FunctionTypeMap.Use, h, hmd, FunctionTypeMap.EndModule, List.append_assoc]
  · intro m ft
    simp [FunctionTypeMap.Define, FunctionTypeMap.Size]
  · refine ⟨by decide, by decide, by decide, by decide, by decide⟩

/-- Witness for `functionTypeMap_spec`: at the concrete one-entry map of
FunctionTypeUse_ReuseType, using the structurally equal type returns
index 0 and leaves the map unchanged. -/
theorem functionTypeMap_spec_witness :
    ftI32 ∈ (FunctionTypeMap.mk [ftI32] []).list ∧
    ((FunctionTypeMap.mk [ftI32] []).Use ftI32).2 = FunctionTypeMap.mk [ftI32] [] ∧
    ((FunctionTypeMap.mk [ftI32] []).Use ftI32).1 = some 0 :=
  ⟨by decide,
    (functionTypeMap_spec.1 (FunctionTypeMap.mk [ftI32] []) ftI32 (by decide)).1,
    by decide⟩

/-- Modelled from the spec: plain text-format instructions as they
appear in a flattened instruction list (the instruction type of
wasp/text/types.h is not in the sampled slice; the variants here cover
the instructions exercised by TextReadTest.Expression_PlainFolded and
TextReadTest.Expression_If, plus an opaque remainder). -/
inductive PlainInstr where
  | nop
  | i32const (n : Nat)
  | i32add
  | ifOp
  | elseOp
  | endOp
  | other (k : Nat)
deriving DecidableEq, Repr

/-- Modelled from the spec: a folded text expression (spec.md section
4.4): either a plain instruction head with folded operand expressions,
or the folded if form with a condition, a then body and an else body. -/
inductive Folded where
  | plain (head : PlainInstr) (operands : List Folded)
  | ifFolded (cond : List Folded) (thenBody : List PlainInstr) (elseBody : List PlainInstr)

mutual
/-- Declarative flattening of one folded expression: operands first, in
order, each recursively flattened, then the head; the folded if form
becomes condition, if, then-body, else, else-body, end. -/
def flattenOne : Folded → List PlainInstr
  | .plain head operands => flattenList operands ++ [head]
  | .ifFolded cond thenB elseB =>
      flattenList cond ++ [.ifOp] ++ thenB ++ [.elseOp] ++ elseB ++ [.endOp]

/-- Declarative flattening of a list of folded expressions, in order. -/
def flattenList : List Folded → List PlainInstr
  | [] => []
  | f :: fs => flattenOne f ++ flattenList fs
end

mutual
/-- The parser's emission process for one folded expression, modelled
operationally: instructions are appended to the accumulated output as
the recursive descent reads them — operands before the head, and for
the if form the condition, then `if`, the then body, `else`, the else
body, and `end`. -/
def emitOne (f : Folded) (acc : List PlainInstr) : List PlainInstr :=
  match f with
  | .plain head operands => emitList operands acc ++ [head]
  | .ifFolded cond thenB elseB =>
      emitList cond acc ++ [.ifOp] ++ thenB ++ [.elseOp] ++ elseB ++ [.endOp]

/-- Emission of a list of folded expressions, left to right, threading
the accumulated output. -/
def emitList : List Folded → List PlainInstr → List PlainInstr
  | [], acc => acc
  | f :: fs, acc => emitList fs (emitOne f acc)
end

mutual
/-- The emission process produces the accumulated output followed by
the declarative flattening. -/
theorem emitOne_eq : ∀ (f : Folded) (acc : List PlainInstr),
    emitOne f acc = acc ++ flattenOne f
  | .plain head operands, acc => by
      rw [emitOne, flattenOne, emitList_eq operands acc]
      simp
  | .ifFolded cond thenB elseB, acc => by
      rw [emitOne, flattenOne, emitList_eq cond acc]
      simp

/-- List version of `emitOne_eq`. -/
theorem emitList_eq : ∀ (fs : List Folded) (acc : List PlainInstr),
    emitList fs acc = acc ++ flattenList fs
  | [], acc => by rw [emitList, flattenList]; simp
  | f :: fs, acc => by
      rw [emitList, flattenList, emitList_eq fs, emitOne_eq]
      simp
end

/-- C6.  Parsing a folded expression emits the operands first, in
source order and each recursively flattened, then the head instruction;
the folded if form emits condition, if, then-body, else, else-body,
end; and the concrete test expressions of
TextReadTest.Expression_PlainFolded and TextReadTest.Expression_If
(src/test/text/read_test.cc) flatten exactly as the tests expect. -/
theorem foldedExpression_flattening :
    (∀ (f : Folded) (acc : List PlainInstr), emitOne f acc = acc ++ flattenOne f) ∧
    (∀ (head : PlainInstr) (operands : List Folded),
      flattenOne (.plain head operands) = flattenList operands ++ [head]) ∧
    (∀ (cond : List Folded) (thenB elseB : List PlainInstr),
      flattenOne (.ifFolded cond thenB elseB) =
        flattenList cond ++ [.ifOp] ++ thenB ++ [.elseOp] ++ elseB ++ [.endOp]) ∧
    emitOne (.plain .i32add [.plain (.i32const 0) [], .plain (.i32const 1) []]) [] =
      [.i32const 0, .i32const 1, .i32add] ∧
    emitOne (.ifFolded [.plain .nop []] [.nop] [.nop]) [] =
      [.nop, .ifOp, .nop, .elseOp, .nop, .endOp] := by
  refine ⟨emitOne_eq, ?_, ?_, ?_, ?_⟩
  · intro head operands; rw [flattenOne]
  · intro cond thenB elseB; rw [flattenOne]
  · rfl
  · rfl

/-- `ReadBytes` (src/binary/reader-inl.h lines 61-69): take the first
`n` bytes if available, else fail. -/
def ReadBytes (d : List Nat) (n : Nat) : Option (List Nat × List Nat) :=
  if n ≤ d.length then some (d.take n, d.drop n) else none

/-- The magic bytes `\0asm` (encoding::Magic). -/
def kMagic : List Nat := [0x00, 0x61, 0x73, 0x6D]

/-- The version bytes 01 00 00 00 (encoding::Version). -/
def kVersion : List Nat := [0x01, 0x00, 0x00, 0x00]

/-- Outcome of `ReadModule`: `ok`, a reported error, or `derefAbsent` —
the C++ error branch that evaluates `*opt_magic` or `*opt_version`
after `ReadBytes` returned `absl::nullopt`, which dereferences an
absent optional (undefined behaviour); the embedding makes that
outcome explicit. -/
inductive ModuleResult where
  | ok
  | error
  | derefAbsent
deriving DecidableEq, Repr

/-- `ReadSection` (src/binary/reader-inl.h lines 493-507): read the
section code and payload length, fail if the payload exceeds the
remaining input, otherwise skip the payload. -/
def ReadSection (d : List Nat) : Option (List Nat) :=
  match ReadVarInt 32 false d with
  | (.ok _, r1) =>
      match ReadVarInt 32 false r1 with
      | (.ok len, r2) => if r2.length < len.toNat then none else some (r2.drop len.toNat)
      | (.error _, _) => none
  | (.error _, _) => none

/-- The section loop of `ReadModule` (src/binary/reader-inl.h lines
530-534); each successful `ReadSection` consumes at least one byte, so
the input length is enough fuel. -/
def ReadModuleLoop : Nat → List Nat → ModuleResult
  | _, [] => .ok
  | 0, _ :: _ => .error
  | fuel + 1, b :: rest =>
      match ReadSection (b :: rest) with
      | none => .error
      | some r => ReadModuleLoop fuel r

/-- `ReadModule` (src/binary/reader-inl.h lines 509-537).  When
`ReadBytes` fails, `opt_magic != kMagic` (respectively `opt_version !=
kVersion`) is true because an empty `absl::optional` compares unequal
to any value, and the error branch then evaluates `*opt_magic`
(`*opt_version`) to format the message — an absent-optional
dereference, modelled as `derefAbsent`. -/
def ReadModule (d : List Nat) : ModuleResult :=
  match ReadBytes d 4 with
  | none => .derefAbsent
  | some (magic, r1) =>
      if magic ≠ kMagic then .error
      else
        match ReadBytes r1 4 with
        | none => .derefAbsent
        | some (version, r2) =>
            if version ≠ kVersion then .error
            else ReadModuleLoop r2.length r2

/-- C9.  The claim fails on the code: on any input shorter than four
bytes (and on any input whose version field is truncated) `ReadModule`
reaches the magic or version mismatch error branch with an absent
optional and dereferences it (src/binary/reader-inl.h lines 514-528) —
while on a well-formed prefix it behaves normally (a wrong magic with
four bytes present is an ordinary error, and the empty module parses). -/
theorem readModule_absent_deref :
    ReadModule [] = .derefAbsent ∧
    ReadModule [0x00, 0x61] = .derefAbsent ∧
    ReadModule [0x00, 0x61, 0x73, 0x6D] = .derefAbsent ∧
    ReadModule [0x00, 0x61, 0x73, 0x6D, 0x01, 0x00] = .derefAbsent ∧
    ReadModule [0x01, 0x61, 0x73, 0x6D, 0x01, 0x00, 0x00, 0x00] = .error ∧
    ReadModule [0x00, 0x61, 0x73, 0x6D, 0x01, 0x00, 0x00, 0x00] = .ok := by
  refine ⟨rfl, rfl, rfl, rfl, rfl, rfl⟩

/-- The encoded values accepted by `ReadValType`
(src/binary/reader-inl.h lines 160-172): the signed-LEB encodings of
I32, I64, F32, F64, Anyfunc, Func and Void.  The numeric constants of
src/binary/encoding.h are not in the sampled slice; the values follow
the canonical WebAssembly encoding (0x7f, 0x7e, 0x7d, 0x7c, 0x70, 0x60,
0x40 as signed bytes). -/
def encValTypeVals : List Int := [-1, -2, -3, -4, -16, -32, -64]

/-- `ReadValType` (src/binary/reader-inl.h lines 160-172): a signed
LEB128 read whose value must be one of the known value-type encodings. -/
def ReadValType (d : List Nat) : Option (Int × List Nat) :=
  match ReadVarInt 32 true d with
  | (.ok v, rest) => if v ∈ encValTypeVals then some (v, rest) else none
  | (.error _, _) => none

/-- `ReadIndex` = `ReadVarU32` (src/binary/reader-inl.h lines 105-111). -/
def ReadIndex (d : List Nat) : Option (Nat × List Nat) :=
  match ReadVarInt 32 false d with
  | (.ok v, rest) => some (v.toNat, rest)
  | (.error _, _) => none

/-- The element loop of `ReadVec<Index>` (src/binary/reader-inl.h lines
137-147): read `n` more indices. -/
def readVecIndexAux : Nat → List Nat → Option (List Nat)
  | 0, d => some d
  | n + 1, d =>
      match ReadIndex d with
      | some (_, r) => readVecIndexAux n r
      | none => none

/-- `ReadVec<Index>`: a length-prefixed vector of indices, tracking the
remaining input. -/
def readVecIndex (d : List Nat) : Option (List Nat) :=
  match ReadIndex d with
  | some (len, r) => readVecIndexAux len r
  | none => none

/-- `encoding::Opcode::End` (0x0B); the opcode byte values of
src/binary/encoding.h are not in the sampled slice and follow the
canonical WebAssembly encoding. -/
def opcEnd : Nat := 0x0B

/-- The opcodes `ReadExpr` treats as opening a new nesting level
(src/binary/reader-inl.h lines 384-393): Block (0x02), Loop (0x03) and
If (0x04) — and no others. -/
def isBlockOpcode (b : Nat) : Bool := b = 0x02 || b = 0x03 || b = 0x04

/-- The no-immediate opcodes of `ReadExpr` (src/binary/reader-inl.h
lines 251-381): Unreachable (0x00), Nop (0x01), Else (0x05), Return
(0x0F), Drop (0x1A), Select (0x1B) and the numeric opcodes 0x45
through 0xBF. -/
def isNoImmOpcode (b : Nat) : Bool :=
  b = 0x00 || b = 0x01 || b = 0x05 || b = 0x0F || b = 0x1A || b = 0x1B ||
    (0x45 ≤ b && b ≤ 0xBF)

/-- The single-index-immediate opcodes of `ReadExpr`
(src/binary/reader-inl.h lines 396-407): Br (0x0C), BrIf (0x0D), Call
(0x10), GetLocal (0x20), SetLocal (0x21), TeeLocal (0x22), GetGlobal
(0x23), SetGlobal (0x24). -/
def isIndexOpcode (b : Nat) : Bool :=
  b = 0x0C || b = 0x0D || b = 0x10 || b = 0x20 || b = 0x21 || b = 0x22 ||
    b = 0x23 || b = 0x24

/-- The memarg opcodes of `ReadExpr` (src/binary/reader-inl.h lines
429-456): the loads 0x28-0x35 and the stores 0x36-0x3E. -/
def isMemargOpcode (b : Nat) : Bool := 0x28 ≤ b && b ≤ 0x3E

/-- Keep only the remaining input of a `ReadVarInt` result that
succeeded (used for the const immediates, whose values go to hooks). -/
def exceptSkip : Except ReadError Int × List Nat → Option (List Nat)
  | (.ok _, rest) => some rest
  | (.error _, _) => none

/-- Consume the immediates of a non-End opcode `b`, following the case
groups of `ReadExpr` (src/binary/reader-inl.h lines 242-486): block
type for Block/Loop/If; nothing for the bare opcodes; one index; index
plus a reserved byte for CallIndirect (0x11); index vector plus default
target for BrTable (0x0E); alignment and offset for the memarg group;
and the constant payloads of 0x41-0x44.  Any other opcode is unknown
(the default branch at lines 483-485). -/
def skipImmediates (b : Nat) (r : List Nat) : Option (List Nat) :=
  if isBlockOpcode b then (ReadValType r).map (fun p => p.2)
  else if isNoImmOpcode b then some r
  else if isIndexOpcode b then (ReadIndex r).map (fun p => p.2)
  else if b = 0x11 then (ReadIndex r).bind (fun p => p.2.tail?)
  else if b = 0x0E then (readVecIndex r).bind (fun r1 => (ReadIndex r1).map (fun p => p.2))
  else if isMemargOpcode b then
    (ReadIndex r).bind (fun p => (ReadIndex p.2).map (fun q => q.2))
  else if b = 0x41 then exceptSkip (ReadVarInt 32 true r)
  else if b = 0x42 then exceptSkip (ReadVarInt 64 true r)
  else if b = 0x43 then (ReadBytes r 4).map (fun p => p.2)
  else if b = 0x44 then (ReadBytes r 8).map (fun p => p.2)
  else none

/-- How one decoded instruction affects the nesting bookkeeping of
`ReadExpr`: an End, an opener (Block/Loop/If), or any other
instruction. -/
inductive InstrKind where
  | endK
  | openK
  | plainK
deriving DecidableEq, Repr

/-- Decode one instruction (opcode plus immediates) from the front of
the input, classifying it for the nesting bookkeeping, exactly as one
iteration of the `ReadExpr` loop does (src/binary/reader-inl.h lines
240-487). -/
def readInstr (d : List Nat) : Option (InstrKind × List Nat) :=
  match d with
  | [] => none
  | b :: r =>
      if b = opcEnd then some (.endK, r)
      else
        (skipImmediates b r).map
          (fun r1 => (if isBlockOpcode b then .openK else .plainK, r1))

/-- The byte-counting loop of `ReadExpr`: the first `Nat` is fuel, the
second is `ends_expected`; the loop returns the remaining input once
all open levels (including the implicit outer one) are closed.  Each
iteration consumes at least one byte, so the input length is enough
fuel. -/
def ReadExprLoop : Nat → Nat → List Nat → Option (List Nat)
  | _, 0, d => some d
  | 0, _ + 1, _ => none
  | fuel + 1, n + 1, d =>
      match readInstr d with
      | none => none
      | some (.endK, r) => ReadExprLoop fuel n r
      | some (.openK, r) => ReadExprLoop fuel (n + 2) r
      | some (.plainK, r) => ReadExprLoop fuel (n + 1) r

/-- `ReadExpr` (src/binary/reader-inl.h lines 235-491), tracking the
remaining input after the expression. -/
def ReadExpr (d : List Nat) : Option (List Nat) := ReadExprLoop d.length 1 d

/-- `ReadVarInt` never lengthens the remaining input. -/
theorem ReadVarInt_length (w : Nat) (signed : Bool) (d : List Nat) :
    (ReadVarInt w signed d).2.length ≤ d.length := by
  obtain ⟨k, _, _, h⟩ := readVarIntLoop_drop w signed (maxVarIntBytes w - 1) 0 0 d
  rw [ReadVarInt, h]
  simp

/-- `exceptSkip` of a `ReadVarInt` never lengthens the remaining input. -/
theorem exceptSkip_length (w : Nat) (signed : Bool) (d r1 : List Nat)
    (h : exceptSkip (ReadVarInt w signed d) = some r1) : r1.length ≤ d.length := by
  unfold exceptSkip at h
  split at h
  · rename_i v rest heq
    simp only [Option.some.injEq] at h
    subst h
    have := ReadVarInt_length w signed d
    rw [heq] at this
    exact this
  · simp at h

/-- `ReadValType` never lengthens the remaining input. -/
theorem ReadValType_length (d : List Nat) (v : Int) (r : List Nat)
    (h : ReadValType d = some (v, r)) : r.length ≤ d.length := by
  unfold ReadValType at h
  split at h
  · rename_i v2 rest heq
    split_ifs at h
    simp only [Option.some.injEq, Prod.mk.injEq] at h
    obtain ⟨h1, h2⟩ := h
    subst h2
    have := ReadVarInt_length 32 true d
    rw [heq] at this
    exact this
  · simp at h

/-- `ReadIndex` never lengthens the remaining input. -/
theorem ReadIndex_length (d : List Nat) (v : Nat) (r : List Nat)
    (h : ReadIndex d = some (v, r)) : r.length ≤ d.length := by
  unfold ReadIndex at h
  split at h
  · rename_i v2 rest heq
    simp only [Option.some.injEq, Prod.mk.injEq] at h
    obtain ⟨h1, h2⟩ := h
    subst h2
    have := ReadVarInt_length 32 false d
    rw [heq] at this
    exact this
  · simp at h

/-- The index-vector loop never lengthens the remaining input. -/
theorem readVecIndexAux_length :
    ∀ (n : Nat) (d r : List Nat), readVecIndexAux n d = some r → r.length ≤ d.length := by
  intro n
  induction n with
  | zero =>
      intro d r h
      unfold readVecIndexAux at h
      simp only [Option.some.injEq] at h
      subst h
      exact le_refl _
  | succ n ih =>
      intro d r h
      unfold readVecIndexAux at h
      split at h
      · rename_i v r1 heq
        exact le_trans (ih r1 r h) (ReadIndex_length d v r1 heq)
      · simp at h

/-- `readVecIndex` never lengthens the remaining input. -/
theorem readVecIndex_length (d r : List Nat) (h : readVecIndex d = some r) :
    r.length ≤ d.length := by
  unfold readVecIndex at h
  split at h
  · rename_i len r1 heq
    exact le_trans (readVecIndexAux_length len r1 r h) (ReadIndex_length d len r1 heq)
  · simp at h

/-- `ReadBytes` never lengthens the remaining input. -/
theorem ReadBytes_length (d : List Nat) (n : Nat) (t r : List Nat)
    (h : ReadBytes d n = some (t, r)) : r.length ≤ d.length := by
  rw [ReadBytes] at h
  split_ifs at h
  simp only [Option.some.injEq, Prod.mk.injEq] at h
  obtain ⟨h1, h2⟩ := h
  subst h2
  simp

/-- Consuming the immediates of an opcode never lengthens the remaining
input. -/
theorem skipImmediates_length (b : Nat) (r r1 : List Nat)
    (h : skipImmediates b r = some r1) : r1.length ≤ r.length := by
  rw [skipImmediates] at h
  by_cases h1 : isBlockOpcode b = true
  · rw [if_pos h1] at h
    simp only [Option.map_eq_some'] at h
    obtain ⟨⟨v, r2⟩, hv, rfl⟩ := h
    exact ReadValType_length r v r2 hv
  · rw [if_neg h1] at h
    by_cases h2 : isNoImmOpcode b = true
    · rw [if_pos h2] at h
      simp only [Option.some.injEq] at h
      subst h
      exact le_refl _
    · rw [if_neg h2] at h
      by_cases h3 : isIndexOpcode b = true
      · rw [if_pos h3] at h
        simp only [Option.map_eq_some'] at h
        obtain ⟨⟨v, r2⟩, hv, rfl⟩ := h
        exact ReadIndex_length r v r2 hv
      · rw [if_neg h3] at h
        by_cases h4 : b = 0x11
        · rw [if_pos h4] at h
          simp only [Option.bind_eq_some] at h
          obtain ⟨⟨v, r2⟩, hv, ht⟩ := h
          cases r2 with
          | nil => simp [List.tail?] at ht
          | cons x r3 =>
              simp only [List.tail?_cons, Option.some.injEq] at ht
              subst ht
              have := ReadIndex_length r v (x :: r3) hv
              simp only [List.length_cons] at this
              omega
        · rw [if_neg h4] at h
          by_cases h5 : b = 0x0E
          · rw [if_pos h5] at h
            simp only [Option.bind_eq_some, Option.map_eq_some'] at h
            obtain ⟨r2, hv, ⟨v, r3⟩, hw, rfl⟩ := h
            exact le_trans (ReadIndex_length r2 v r3 hw) (readVecIndex_length r r2 hv)
          · rw [if_neg h5] at h
            by_cases h6 : isMemargOpcode b = true
            · rw [if_pos h6] at h
              simp only [Option.bind_eq_some, Option.map_eq_some'] at h
              obtain ⟨⟨v, r2⟩, hv, ⟨v2, r3⟩, hw, rfl⟩ := h
              exact le_trans (ReadIndex_length r2 v2 r3 hw) (ReadIndex_length r v r2 hv)
            · rw [if_neg h6] at h
              by_cases h7 : b = 0x41
              · rw [if_pos h7] at h
                exact exceptSkip_length 32 true r r1 h
              · rw [if_neg h7] at h
                by_cases h8 : b = 0x42
                · rw [if_pos h8] at h
                  exact exceptSkip_length 64 true r r1 h
                · rw [if_neg h8] at h
                  by_cases h9 : b = 0x43
                  · rw [if_pos h9] at h
                    simp only [Option.map_eq_some'] at h
                    obtain ⟨⟨t, r2⟩, hv, rfl⟩ := h
                    exact ReadBytes_length r 4 t r2 hv
                  · rw [if_neg h9] at h
                    by_cases h10 : b = 0x44
                    · rw [if_pos h10] at h
                      simp only [Option.map_eq_some'] at h
                      obtain ⟨⟨t, r2⟩, hv, rfl⟩ := h
                      exact ReadBytes_length r 8 t r2 hv
                    · rw [if_neg h10] at h
                      simp at h

/-- Decoding one instruction strictly shortens the input. -/
theorem readInstr_length (d : List Nat) (k : InstrKind) (r : List Nat)
    (h : readInstr d = some (k, r)) : r.length < d.length := by
  cases d with
  | nil => simp [readInstr] at h
  | cons b rest =>
      simp only [readInstr] at h
      have hgoal : r.length ≤ rest.length → r.length < (b :: rest).length := by
        intro hx
        simp only [List.length_cons]
        omega
      apply hgoal
      by_cases hEnd : b = opcEnd
      · rw [if_pos hEnd] at h
        simp only [Option.some.injEq, Prod.mk.injEq] at h
        obtain ⟨h1, h2⟩ := h
        subst h2
        exact le_refl _
      · rw [if_neg hEnd] at h
        simp only [Option.map_eq_some'] at h
        obtain ⟨r1, hs, hr⟩ := h
        simp only [Prod.mk.injEq] at hr
        obtain ⟨h1, h2⟩ := hr
        subst h2
        exact skipImmediates_length b rest r1 hs

/-- The declarative nesting discipline of an expression: `ExprBalanced d rest` holds when the instructions at the front of `d` close exactly one
open level — an `End` closes it; a plain instruction keeps it; an
opener (Block/Loop/If) opens exactly one new inner level that must be
closed by its own `End` before the outer one. -/
inductive ExprBalanced : List Nat → List Nat → Prop where
  | fin : ∀ {d r : List Nat}, readInstr d = some (.endK, r) → ExprBalanced d r
  | step : ∀ {d r rest : List Nat},
      readInstr d = some (.plainK, r) → ExprBalanced r rest → ExprBalanced d rest
  | opened : ∀ {d r m rest : List Nat},
      readInstr d = some (.openK, r) → ExprBalanced r m → ExprBalanced m rest → ExprBalanced d rest

/-- `n` consecutive balanced segments. -/
inductive ExprIter : Nat → List Nat → List Nat → Prop where
  | zero : ∀ {d : List Nat}, ExprIter 0 d d
  | succ : ∀ {n : Nat} {d m rest : List Nat},
      ExprBalanced d m → ExprIter n m rest → ExprIter (n + 1) d rest

/-- Inversion for a positive iteration count. -/
theorem exprIter_succ_inv {n : Nat} {d rest : List Nat} (h : ExprIter (n + 1) d rest) :
    ∃ m, ExprBalanced d m ∧ ExprIter n m rest := by
  cases h with
  | succ hb hit => exact ⟨_, hb, hit⟩

/-- A successful run of the `ReadExpr` loop with `n` pending levels is
`n` balanced segments. -/
theorem readExprLoop_to_exprIter :
    ∀ (fuel n : Nat) (d rest : List Nat),
      ReadExprLoop fuel n d = some rest → ExprIter n d rest := by
  intro fuel
  induction fuel with
  | zero =>
      intro n d rest h
      cases n with
      | zero =>
          simp only [ReadExprLoop, Option.some.injEq] at h
          subst h
          exact .zero
      | succ n => simp [ReadExprLoop] at h
  | succ fuel ih =>
      intro n d rest h
      cases n with
      | zero =>
          simp only [ReadExprLoop, Option.some.injEq] at h
          subst h
          exact .zero
      | succ n =>
          simp only [ReadExprLoop] at h
          split at h
          · exact absurd h (by simp)
          · rename_i heq
            exact .succ (.fin heq) (ih n _ rest h)
          · rename_i heq
            have hit := ih (n + 2) _ rest h
            obtain ⟨m1, hb1, hit1⟩ := exprIter_succ_inv hit
            obtain ⟨m2, hb2, hit2⟩ := exprIter_succ_inv hit1
            exact .succ (.opened heq hb1 hb2) hit2
          · rename_i heq
            have hit := ih (n + 1) _ rest h
            obtain ⟨m, hb, hit1⟩ := exprIter_succ_inv hit
            exact .succ (.step heq hb) hit1

/-- A balanced segment makes the loop consume it and continue with one
fewer pending level, for any sufficient fuel. -/
theorem exprBalanced_readExprLoop {d m : List Nat} (hb : ExprBalanced d m) :
    ∀ (n : Nat) (rest : List Nat),
      (∀ fuel, m.length ≤ fuel → ReadExprLoop fuel n m = some rest) →
      ∀ fuel, d.length ≤ fuel → ReadExprLoop fuel (n + 1) d = some rest := by
  induction hb with
  | fin heq =>
      rename_i d2 r2
      intro n rest hm fuel hf
      cases fuel with
      | zero =>
          have hd : d2 = [] := List.length_eq_zero.mp (Nat.le_zero.mp hf)
          subst hd
          simp [readInstr] at heq
      | succ f =>
          simp only [ReadExprLoop, heq]
          apply hm
          have := readInstr_length d2 .endK r2 heq
          omega
  | step heq hb2 ih =>
      rename_i d2 r2 rest2
      intro n rest hm fuel hf
      cases fuel with
      | zero =>
          have hd : d2 = [] := List.length_eq_zero.mp (Nat.le_zero.mp hf)
          subst hd
          simp [readInstr] at heq
      | succ f =>
          simp only [ReadExprLoop, heq]
          apply ih n rest hm f
          have := readInstr_length d2 .plainK r2 heq
          omega
  | opened heq hb1 hb2 ih1 ih2 =>
      rename_i d2 r2 m2 rest2
      intro n rest hm fuel hf
      cases fuel with
      | zero =>
          have hd : d2 = [] := List.length_eq_zero.mp (Nat.le_zero.mp hf)
          subst hd
          simp [readInstr] at heq
      | succ f =>
          simp only [ReadExprLoop, heq]
          apply ih1 (n + 1) rest (fun fuel2 hf2 => ih2 n rest hm fuel2 hf2) f
          have := readInstr_length d2 .openK r2 heq
          omega

/-- `n` balanced segments make the loop succeed with `n` pending
levels, for any sufficient fuel. -/
theorem exprIter_readExprLoop :
    ∀ {n : Nat} {d rest : List Nat}, ExprIter n d rest →
      ∀ fuel, d.length ≤ fuel → ReadExprLoop fuel n d = some rest := by
  intro n d rest h
  induction h with
  | zero =>
      intro fuel _
      cases fuel <;> simp [ReadExprLoop]
  | succ hb hit ih =>
      intro fuel hf
      exact exprBalanced_readExprLoop hb _ _ (fun f hf2 => ih f hf2) fuel hf

/-- C3 (amended).  `ReadExpr` succeeds exactly on inputs whose
instructions close the single implicit outer level: every `End` closes
one level and every Block/Loop/If opens exactly one inner level that is
closed by its own `End` — `Try` is **not** among the openers, since
this reader does not recognise it (see `readExpr_try_not_opener`);
concretely, a Loop with a void block type needs two Ends
(src/binary/reader-inl.h lines 235-491). -/
theorem readExpr_nesting :
    (∀ (d rest : List Nat), ReadExpr d = some rest ↔ ExprBalanced d rest) ∧
    ReadExpr [0x03, 0x40, 0x0B, 0x0B, 0x01] = some [0x01] := by
  constructor
  · intro d rest
    constructor
    · intro h
      have hit := readExprLoop_to_exprIter d.length 1 d rest h
      obtain ⟨m, hb, hit0⟩ := exprIter_succ_inv hit
      cases hit0
      exact hb
    · intro hb
      exact exprIter_readExprLoop (.succ hb .zero) d.length (le_refl _)
  · rfl

/-- C3 counterexample.  The byte 0x06 — the canonical Try opcode of the
exceptions proposal — is not an opcode of this reader: `ReadExpr` fails
on it as an unknown opcode instead of opening a nesting level, so
[try, end, end] is rejected while the structurally identical
[block, void, end, end] is a complete expression
(src/binary/reader-inl.h lines 483-485, the default branch). -/
theorem readExpr_try_not_opener :
    ReadExpr [0x06, 0x0B, 0x0B] = none ∧
    readInstr [0x06, 0x0B, 0x0B] = none ∧
    ReadExpr [0x02, 0x40, 0x0B, 0x0B] = some [] := by
  refine ⟨rfl, rfl, rfl⟩

/-- Token kinds (wasp/text/read/token.h is not in the sampled slice;
only the kinds the lookahead discipline distinguishes are modelled:
Lpar, Rpar, Eof and an opaque keyword/other kind). -/
inductive TokenType where
  | Lpar
  | Rpar
  | Eof
  | Kw (k : Nat)
deriving DecidableEq, Repr

/-- A token: its kind and an opaque location distinguishing it from
other tokens of the same kind. -/
structure Token where
  type : TokenType
  loc : Nat
deriving DecidableEq, Repr

/-- The token a lexer yields at end of input. -/
def eofToken : Token := ⟨.Eof, 0⟩

/-- Modelled from the spec: `LexNoWhitespaceCollectAnnots`
(wasp/text/read/lex.cc is not in the sampled slice) is an abstract
stream of already-filtered tokens; at end of input it yields Eof
tokens.  Annotation collection does not change the delivered token
stream, so the modelled lexer produces no annotation vectors. -/
def lexT (d : List Token) : Token × List Token :=
  match d with
  | [] => (eofToken, [])
  | t :: ts => (t, ts)

/-- The tokenizer state
(src/include/wasp/text/read/tokenizer-inl.h): the unlexed remainder
`data`, the two cache slots `toks` indexed by `current`, the number
`count` of cached tokens, the previous token, and the collected
annotations. -/
structure Tokenizer where
  data : List Token
  toks : Bool → Token
  current : Bool
  count : Nat
  prev : Token
  annots : List (List Token)

/-- `Tokenizer::Read` (tokenizer-inl.h lines 42-53): on an empty cache
lex directly; otherwise pop the current slot and flip `current`. -/
def Tokenizer.Read (tz : Tokenizer) : Token × Tokenizer :=
  if tz.count = 0 then
    let l := lexT tz.data
    (l.1, { tz with data := l.2, prev := l.1 })
  else
    (tz.toks tz.current,
      { tz with prev := tz.toks tz.current, current := !tz.current, count := tz.count - 1 })

/-- `Tokenizer::Peek` (tokenizer-inl.h lines 55-74): fill the cache up
to `a + 1` tokens (`a` is 0 or 1) and return the requested one without
consuming it. -/
def Tokenizer.Peek (tz : Tokenizer) (a : Nat) : Token × Tokenizer :=
  let tz1 :=
    if tz.count = 0 then
      let l := lexT tz.data
      { tz with
          data := l.2
          toks := fun i => if i = tz.current then l.1 else tz.toks i
          count := 1 }
    else tz
  if a = 0 then (tz1.toks tz1.current, tz1)
  else
    let tz2 :=
      if tz1.count = 1 then
        let l := lexT tz1.data
        { tz1 with
            data := l.2
            toks := fun i => if i = !tz1.current then l.1 else tz1.toks i
            count := 2 }
      else tz1
    (tz2.toks (!tz2.current), tz2)

/-- `Tokenizer::Match` (tokenizer-inl.h lines 76-81): peek; on a kind
match consume and return the token, otherwise return none. -/
def Tokenizer.Match (tz : Tokenizer) (tt : TokenType) : Option Token × Tokenizer :=
  let ptz := tz.Peek 0
  if ptz.1.type = tt then
    let rtz := ptz.2.Read
    (some rtz.1, rtz.2)
  else (none, ptz.2)

/-- `Tokenizer::MatchLpar` (tokenizer-inl.h lines 83-89): match an
Lpar followed by the given kind, consuming both exactly when both
match. -/
def Tokenizer.MatchLpar (tz : Tokenizer) (tt : TokenType) : Option Token × Tokenizer :=
  let p0 := tz.Peek 0
  let p1 := p0.2.Peek 1
  if p0.1.type = TokenType.Lpar ∧ p1.1.type = tt then
    let r1 := p1.2.Read
    let r2 := r1.2.Read
    (some r2.1, r2.2)
  else (none, p1.2)

/-- The cached tokens, in delivery order. -/
def Tokenizer.cached (tz : Tokenizer) : List Token :=
  if tz.count = 0 then []
  else if tz.count = 1 then [tz.toks tz.current]
  else [tz.toks tz.current, tz.toks (!tz.current)]

/-- The observable token stream: the `n`-th token that `Read` would
deliver (Eof past the end of input). -/
def Tokenizer.obs (tz : Tokenizer) (n : Nat) : Token :=
  (tz.cached ++ tz.data).getD n eofToken

/-- `Read` delivers the first observable token, shifts the stream by
one, and keeps at most two cached tokens. -/
theorem Tokenizer.read_spec (tz : Tokenizer) (h : tz.count ≤ 2) :
    (tz.Read).1 = tz.obs 0 ∧ (∀ n, (tz.Read).2.obs n = tz.obs (n + 1)) ∧
      (tz.Read).2.count ≤ 2 := by
  have hc : tz.count = 0 ∨ tz.count = 1 ∨ tz.count = 2 := by omega
  rcases hc with hc | hc | hc
  · rcases hd : tz.data with _ | ⟨t, ts⟩
    · refine ⟨?_, ?_, ?_⟩
      · simp [Tokenizer.Read, Tokenizer.obs, Tokenizer.cached, lexT, hc, hd]
      · intro n
        simp [Tokenizer.Read, Tokenizer.obs, Tokenizer.cached, lexT, hc, hd]
      · simp [Tokenizer.Read, hc]
    · refine ⟨?_, ?_, ?_⟩
      · simp [Tokenizer.Read, Tokenizer.obs, Tokenizer.cached, lexT, hc, hd]
      · intro n
        simp [Tokenizer.Read, Tokenizer.obs, Tokenizer.cached, lexT, hc, hd]
      · simp [Tokenizer.Read, hc]
  · refine ⟨?_, ?_, ?_⟩
    · simp [Tokenizer.Read, Tokenizer.obs, Tokenizer.cached, hc]
    · intro n
      simp [Tokenizer.Read, Tokenizer.obs, Tokenizer.cached, hc]
    · simp [Tokenizer.Read, hc]
  · refine ⟨?_, ?_, ?_⟩
    · simp [Tokenizer.Read, Tokenizer.obs, Tokenizer.cached, hc]
    · intro n
      cases n <;> simp [Tokenizer.Read, Tokenizer.obs, Tokenizer.cached, hc]
    · simp [Tokenizer.Read, hc]

/-- `Peek 0` returns the first observable token without consuming
anything, and keeps at most two cached tokens. -/
theorem Tokenizer.peek0_spec (tz : Tokenizer) (h : tz.count ≤ 2) :
    (tz.Peek 0).1 = tz.obs 0 ∧ (∀ n, (tz.Peek 0).2.obs n = tz.obs n) ∧
      (tz.Peek 0).2.count ≤ 2 := by
  have hc : tz.count = 0 ∨ tz.count = 1 ∨ tz.count = 2 := by omega
  rcases hc with hc | hc | hc
  · rcases hd : tz.data with _ | ⟨t, ts⟩
    · refine ⟨?_, ?_, ?_⟩
      · simp [Tokenizer.Peek, Tokenizer.obs, Tokenizer.cached, lexT, hc, hd]
      · intro n
        cases n <;> simp [Tokenizer.Peek, Tokenizer.obs, Tokenizer.cached, lexT, hc, hd]
      · simp [Tokenizer.Peek, hc]
    · refine ⟨?_, ?_, ?_⟩
      · simp [Tokenizer.Peek, Tokenizer.obs, Tokenizer.cached, lexT, hc, hd]
      · intro n
        cases n <;> simp [Tokenizer.Peek, Tokenizer.obs, Tokenizer.cached, lexT, hc, hd]
      · simp [Tokenizer.Peek, hc]
  · refine ⟨?_, ?_, ?_⟩
    · simp [Tokenizer.Peek, Tokenizer.obs, Tokenizer.cached, hc]
    · intro n
      simp [Tokenizer.Peek, Tokenizer.obs, Tokenizer.cached, hc]
    · simp [Tokenizer.Peek, hc]
  · refine ⟨?_, ?_, ?_⟩
    · simp [Tokenizer.Peek, Tokenizer.obs, Tokenizer.cached, hc]
    · intro n
      simp [Tokenizer.Peek, Tokenizer.obs, Tokenizer.cached, hc]
    · simp [Tokenizer.Peek, hc]

/-- `Peek 1` returns the second observable token without consuming
anything, and keeps at most two cached tokens. -/
theorem Tokenizer.peek1_spec (tz : Tokenizer) (h : tz.count ≤ 2) :
    (tz.Peek 1).1 = tz.obs 1 ∧ (∀ n, (tz.Peek 1).2.obs n = tz.obs n) ∧
      (tz.Peek 1).2.count ≤ 2 := by
  have hc : tz.count = 0 ∨ tz.count = 1 ∨ tz.count = 2 := by omega
  rcases hc with hc | hc | hc
  · rcases hd : tz.data with _ | ⟨t, ts⟩
    · cases hcur : tz.current
      · refine ⟨?_, ?_, ?_⟩
        · simp [Tokenizer.Peek, Tokenizer.obs, Tokenizer.cached, lexT, hc, hd, hcur]
        · intro n
          cases n with
          | zero => simp [Tokenizer.Peek, Tokenizer.obs, Tokenizer.cached, lexT, hc, hd, hcur]
          | succ m =>
              cases m <;>
                simp [Tokenizer.Peek, Tokenizer.obs, Tokenizer.cached, lexT, hc, hd, hcur]
        · simp [Tokenizer.Peek, lexT, hc, hd, hcur]
      · refine ⟨?_, ?_, ?_⟩
        · simp [Tokenizer.Peek, Tokenizer.obs, Tokenizer.cached, lexT, hc, hd, hcur]
        · intro n
          cases n with
          | zero => simp [Tokenizer.Peek, Tokenizer.obs, Tokenizer.cached, lexT, hc, hd, hcur]
          | succ m =>
              cases m <;>
                simp [Tokenizer.Peek, Tokenizer.obs, Tokenizer.cached, lexT, hc, hd, hcur]
        · simp [Tokenizer.Peek, lexT, hc, hd, hcur]
    · rcases hts : ts with _ | ⟨u, ts2⟩ <;> cases hcur : tz.current
      · refine ⟨?_, ?_, ?_⟩
        · simp [Tokenizer.Peek, Tokenizer.obs, Tokenizer.cached, lexT, hc, hd, hts, hcur]
        · intro n
          cases n with
          | zero => simp [Tokenizer.Peek, Tokenizer.obs, Tokenizer.cached, lexT, hc, hd, hts, hcur]
          | succ m =>
              cases m <;>
                simp [Tokenizer.Peek, Tokenizer.obs, Tokenizer.cached, lexT, hc, hd, hts, hcur]
        · simp [Tokenizer.Peek, lexT, hc, hd, hts, hcur]
      · refine ⟨?_, ?_, ?_⟩
        · simp [Tokenizer.Peek, Tokenizer.obs, Tokenizer.cached, lexT, hc, hd, hts, hcur]
        · intro n
          cases n with
          | zero => simp [Tokenizer.Peek, Tokenizer.obs, Tokenizer.cached, lexT, hc, hd, hts, hcur]
          | succ m =>
              cases m <;>
                simp [Tokenizer.Peek, Tokenizer.obs, Tokenizer.cached, lexT, hc, hd, hts, hcur]
        · simp [Tokenizer.Peek, lexT, hc, hd, hts, hcur]
      · refine ⟨?_, ?_, ?_⟩
        · simp [Tokenizer.Peek, Tokenizer.obs, Tokenizer.cached, lexT, hc, hd, hts, hcur]
        · intro n
          cases n with
          | zero => simp [Tokenizer.Peek, Tokenizer.obs, Tokenizer.cached, lexT, hc, hd, hts, hcur]
          | succ m =>
              cases m <;>
                simp [Tokenizer.Peek, Tokenizer.obs, Tokenizer.cached, lexT, hc, hd, hts, hcur]
        · simp [Tokenizer.Peek, lexT, hc, hd, hts, hcur]
      · refine ⟨?_, ?_, ?_⟩
        · simp [Tokenizer.Peek, Tokenizer.obs, Tokenizer.cached, lexT, hc, hd, hts, hcur]
        · intro n
          cases n with
          | zero => simp [Tokenizer.Peek, Tokenizer.obs, Tokenizer.cached, lexT, hc, hd, hts, hcur]
          | succ m =>
              cases m <;>
                simp [Tokenizer.Peek, Tokenizer.obs, Tokenizer.cached, lexT, hc, hd, hts, hcur]
        · simp [Tokenizer.Peek, lexT, hc, hd, hts, hcur]
  · rcases hd : tz.data with _ | ⟨t, ts⟩ <;> cases hcur : tz.current
    · refine ⟨?_, ?_, ?_⟩
      · simp [Tokenizer.Peek, Tokenizer.obs, Tokenizer.cached, lexT, hc, hd, hcur]
      · intro n
        cases n with
        | zero => simp [Tokenizer.Peek, Tokenizer.obs, Tokenizer.cached, lexT, hc, hd, hcur]
        | succ m =>
            cases m <;>
              simp [Tokenizer.Peek, Tokenizer.obs, Tokenizer.cached, lexT, hc, hd, hcur]
      · simp [Tokenizer.Peek, lexT, hc, hd, hcur]
    · refine ⟨?_, ?_, ?_⟩
      · simp [Tokenizer.Peek, Tokenizer.obs, Tokenizer.cached, lexT, hc, hd, hcur]
      · intro n
        cases n with
        | zero => simp [Tokenizer.Peek, Tokenizer.obs, Tokenizer.cached, lexT, hc, hd, hcur]
        | succ m =>
            cases m <;>
              simp [Tokenizer.Peek, Tokenizer.obs, Tokenizer.cached, lexT, hc, hd, hcur]
      · simp [Tokenizer.Peek, lexT, hc, hd, hcur]
    · refine ⟨?_, ?_, ?_⟩
      · simp [Tokenizer.Peek, Tokenizer.obs, Tokenizer.cached, lexT, hc, hd, hcur]
      · intro n
        cases n with
        | zero => simp [Tokenizer.Peek, Tokenizer.obs, Tokenizer.cached, lexT, hc, hd, hcur]
        | succ m =>
            cases m <;>
              simp [Tokenizer.Peek, Tokenizer.obs, Tokenizer.cached, lexT, hc, hd, hcur]
      · simp [Tokenizer.Peek, lexT, hc, hd, hcur]
    · refine ⟨?_, ?_, ?_⟩
      · simp [Tokenizer.Peek, Tokenizer.obs, Tokenizer.cached, lexT, hc, hd, hcur]
      · intro n
        cases n with
        | zero => simp [Tokenizer.Peek, Tokenizer.obs, Tokenizer.cached, lexT, hc, hd, hcur]
        | succ m =>
            cases m <;>
              simp [Tokenizer.Peek, Tokenizer.obs, Tokenizer.cached, lexT, hc, hd, hcur]
      · simp [Tokenizer.Peek, lexT, hc, hd, hcur]
  · refine ⟨?_, ?_, ?_⟩
    · simp [Tokenizer.Peek, Tokenizer.obs, Tokenizer.cached, hc]
    · intro n
      simp [Tokenizer.Peek, Tokenizer.obs, Tokenizer.cached, hc]
    · simp [Tokenizer.Peek, hc]

/-- C8.  For every tokenizer state holding at most two cached tokens:
every operation keeps at most two cached tokens; `Peek 0` returns the
same token the next `Read` returns without consuming it and `Peek 1`
the one after; `Match` consumes and returns the next token exactly when
its kind matches and otherwise leaves the stream unchanged; and
`MatchLpar` consumes the Lpar and keyword pair exactly when both match,
consuming nothing otherwise
(src/include/wasp/text/read/tokenizer-inl.h lines 42-89). -/
theorem tokenizer_lookahead (tz : Tokenizer) (tt : TokenType) (h : tz.count ≤ 2) :
    ((tz.Read).2.count ≤ 2 ∧ (tz.Peek 0).2.count ≤ 2 ∧ (tz.Peek 1).2.count ≤ 2 ∧
      (tz.Match tt).2.count ≤ 2 ∧ (tz.MatchLpar tt).2.count ≤ 2) ∧
    ((tz.Peek 0).1 = (tz.Read).1 ∧ (∀ n, (tz.Peek 0).2.obs n = tz.obs n) ∧
      (tz.Read).1 = tz.obs 0 ∧ (∀ n, (tz.Read).2.obs n = tz.obs (n + 1))) ∧
    ((tz.Peek 1).1 = tz.obs 1 ∧ (∀ n, (tz.Peek 1).2.obs n = tz.obs n)) ∧
    (((tz.obs 0).type = tt →
        (tz.Match tt).1 = some (tz.obs 0) ∧
          ∀ n, (tz.Match tt).2.obs n = tz.obs (n + 1)) ∧
      ((tz.obs 0).type ≠ tt →
        (tz.Match tt).1 = none ∧ ∀ n, (tz.Match tt).2.obs n = tz.obs n)) ∧
    (((tz.obs 0).type = TokenType.Lpar ∧ (tz.obs 1).type = tt →
        (tz.MatchLpar tt).1 = some (tz.obs 1) ∧
          ∀ n, (tz.MatchLpar tt).2.obs n = tz.obs (n + 2)) ∧
      (¬ ((tz.obs 0).type = TokenType.Lpar ∧ (tz.obs 1).type = tt) →
        (tz.MatchLpar tt).1 = none ∧ ∀ n, (tz.MatchLpar tt).2.obs n = tz.obs n)) := by
  obtain ⟨hp0v, hp0o, hp0c⟩ := tz.peek0_spec h
  obtain ⟨hrv, hro, hrc⟩ := tz.read_spec h
  obtain ⟨hp1v, hp1o, hp1c⟩ := tz.peek1_spec h
  obtain ⟨hrv2, hro2, hrc2⟩ := ((tz.Peek 0).2).read_spec hp0c
  obtain ⟨hb1v, hb1o, hb1c⟩ := ((tz.Peek 0).2).peek1_spec hp0c
  obtain ⟨hr1v, hr1o, hr1c⟩ := (((tz.Peek 0).2.Peek 1).2).read_spec hb1c
  obtain ⟨hr2v, hr2o, hr2c⟩ := ((((tz.Peek 0).2.Peek 1).2.Read).2).read_spec hr1c
  refine ⟨⟨hrc, hp0c, hp1c, ?_, ?_⟩, ⟨?_, hp0o, hrv, hro⟩, ⟨hp1v, hp1o⟩, ⟨?_, ?_⟩, ⟨?_, ?_⟩⟩
  · by_cases hm : ((tz.Peek 0).1).type = tt
    · simp only [Tokenizer.Match, if_pos hm]
      exact hrc2
    · simp only [Tokenizer.Match, if_neg hm]
      exact hp0c
  · by_cases hm : ((tz.Peek 0).1).type = TokenType.Lpar ∧ (((tz.Peek 0).2.Peek 1).1).type = tt
    · simp only [Tokenizer.MatchLpar, if_pos hm]
      exact hr2c
    · simp only [Tokenizer.MatchLpar, if_neg hm]
      exact hb1c
  · rw [hp0v, hrv]
  · intro hm
    have heq : ((tz.Peek 0).1).type = tt := by rw [hp0v]; exact hm
    constructor
    · simp only [Tokenizer.Match, if_pos heq]
      rw [hrv2, hp0o 0]
    · intro n
      simp only [Tokenizer.Match, if_pos heq]
      rw [hro2 n, hp0o (n + 1)]
  · intro hm
    have heq : ¬ ((tz.Peek 0).1).type = tt := by rw [hp0v]; exact hm
    constructor
    · simp only [Tokenizer.Match, if_neg heq]
    · intro n
      simp only [Tokenizer.Match, if_neg heq]
      exact hp0o n
  · intro hm
    have heq : ((tz.Peek 0).1).type = TokenType.Lpar ∧
        (((tz.Peek 0).2.Peek 1).1).type = tt := by
      rw [hp0v, hb1v, hp0o 1]
      exact hm
    constructor
    · simp only [Tokenizer.MatchLpar, if_pos heq]
      rw [hr2v, hr1o 0, hb1o 1, hp0o 1]
    · intro n
      simp only [Tokenizer.MatchLpar, if_pos heq]
      rw [hr2o n, hr1o (n + 1), hb1o (n + 2), hp0o (n + 2)]
  · intro hm
    have heq : ¬ (((tz.Peek 0).1).type = TokenType.Lpar ∧
        (((tz.Peek 0).2.Peek 1).1).type = tt) := by
      rw [hp0v, hb1v, hp0o 1]
      exact hm
    constructor
    · simp only [Tokenizer.MatchLpar, if_neg heq]
    · intro n
      simp only [Tokenizer.MatchLpar, if_neg heq]
      rw [hb1o n, hp0o n]

/-- A concrete tokenizer state over the token stream ( kw5 kw7, with
an empty cache. -/
def tzDemo : Tokenizer :=
  ⟨[⟨.Lpar, 1⟩, ⟨.Kw 5, 2⟩, ⟨.Kw 7, 3⟩], fun _ => eofToken, false, 0, eofToken, []⟩

/-- Witness for `tokenizer_lookahead`: on the concrete stream starting
with an Lpar followed by keyword 5, `MatchLpar` consumes the pair and
returns the keyword token. -/
theorem tokenizer_lookahead_witness :
    tzDemo.count ≤ 2 ∧ (tzDemo.MatchLpar (.Kw 5)).1 = some ⟨.Kw 5, 2⟩ := by
  constructor
  · decide
  · have hta := (tokenizer_lookahead tzDemo (.Kw 5) (by decide)).2.2.2.2.1
    have hres := hta (by constructor <;> decide)
    rw [hres.1]
    decide
